import Mathlib

/-!
Verification development for the typify schema-to-type synthesis engine.

The crate under `src/typify` is a facade: it re-exports the engine
(`TypeSpace`, `TypeId`, `Error`, `import_types!`) and documents the
configuration surface (`derives`, `struct_builder`, `patch`, `replace`,
`convert`).  The engine itself is not part of the source tree, so the
definitions below are modelled from the specification of the engine
(data model, synthesizer, interner, namer, override engine, emitter)
and the facade's documentation.
-/

namespace Typify

/-- Modelled from the spec: the primitive JSON-schema type kinds used by
`Primitive` type shapes and by `convert` shape predicates. -/
inductive PrimKind where
  | string
  | integer
  | number
  | boolean
  | null
deriving DecidableEq, Repr

/-- Modelled from the spec: a `TypeRef` is an opaque, stable reference to a
type — never an owning pointer, which is what breaks cycles.  It is either a
resolved interned `TypeId` (`tid`), a forward placeholder naming a root
schema whose synthesis may still be in progress (`forward`, resolved once
synthesis completes), or a reference to an external replacement type
supplied by a `replace`/`convert` override (`external`). -/
inductive TypeRef where
  | tid (n : Nat)
  | forward (name : String)
  | external (path : String)
deriving DecidableEq, Repr

/-- Modelled from the spec: an abstract, content-addressable description of a
candidate type.  A `TypeShape` never embeds another `TypeShape` by value; it
refers to other types only via `TypeRef`.  Struct fields are
`(name, TypeRef, optional)` triples; enum variants are `(tag, payload)`. -/
inductive TypeShape where
  | struct (fields : List (String × TypeRef × Bool))
  | enum (variants : List (String × Option TypeRef))
  | untagged (alts : List TypeRef)
  | newtype (inner : TypeRef) (formatHint : Option String)
  | sequence (elem : TypeRef)
  | map (value : TypeRef)
  | primitive (kind : PrimKind) (format : Option String)
  | optional (inner : TypeRef)
  | unit
  | builtin (name : String)
deriving DecidableEq, Repr

/-- Modelled from the spec: a normalized view of one schema location.
References to other root schemas are by name (`ref`); `object` carries the
property list and the `required` key set; `mapNode` is an object schema with
only `additionalProperties`; `array` with absent `items` means a sequence of
the builtin any-value type; `unsupported` stands for a construct with no
defined mapping, carrying its pointer for diagnostics. -/
inductive SchemaNode where
  | ref (target : String)
  | prim (kind : PrimKind) (format : Option String)
  | object (props : List (String × SchemaNode)) (required : List String)
  | mapNode (value : SchemaNode)
  | array (items : Option SchemaNode)
  | enumVals (values : List String)
  | allOf (subs : List SchemaNode)
  | oneOf (alts : List SchemaNode)
  | anyOf (alts : List SchemaNode)
  | unsupported (ptr : String)
deriving Repr

/-- Modelled from the spec: the generation-time error kinds.  All of them
abort the entire run. -/
inductive GenError where
  | malformedSchema (msg : String)
  | unresolvableReference (ptr : String)
  | incompatibleMerge (ptr : String)
  | unsupportedSchema (ptr : String)
  | nameCollision (name : String)
deriving DecidableEq, Repr

/-- Modelled from the spec: a `patch` override entry — an optional rename and
extra derives for one named type. -/
structure PatchEntry where
  rename : Option String
  derives : List String
deriving DecidableEq, Repr

/-- Modelled from the spec: a `convert` shape predicate, e.g.
`{ type = "string", format = "uuid" }`: it matches a primitive schema whose
type keyword and format match. -/
structure ConvertPred where
  typeName : String
  format : Option String
deriving DecidableEq, Repr

/-- Modelled from the spec: the recognized configuration options of a
generation run — `derives`, `struct_builder`, `patch`, `replace` and
`convert`.  Override bindings are supplied before synthesis begins and are
read-only during a run. -/
structure Config where
  derives : List String
  structBuilder : Bool
  patch : List (String × PatchEntry)
  replaceTbl : List (String × String)
  convertTbl : List (ConvertPred × String)
deriving DecidableEq, Repr

/-- Modelled from the spec: the default configuration (no extra derives, no
builders, no overrides). -/
def Config.default : Config :=
  { derives := [], structBuilder := false, patch := [], replaceTbl := [], convertTbl := [] }

/-- Modelled from the spec: the mutable part of the `TypeSpace` workspace —
the arena of interned `TypeShape`s (the index of an entry is its `TypeId`)
together with one naming hint per entry, recorded when the entry was first
interned. -/
structure InternState where
  entries : List TypeShape
  hints : List String
deriving DecidableEq, Repr

/-- Modelled from the spec: the empty workspace a generation run starts from. -/
def InternState.empty : InternState := ⟨[], []⟩

/-- Looks a shape up in the arena, returning its `TypeId` (its index) when a
structurally identical entry exists. -/
def lookupShape : List TypeShape → TypeShape → Option Nat
  | [], _ => none
  | s :: rest, t => if s = t then some 0 else (lookupShape rest t).map (· + 1)

/-- Modelled from the spec: `intern(shape) -> TypeId`.  Returns the existing
`TypeId` when a structurally identical entry already exists, else allocates a
fresh one at the end of the arena, recording the naming hint of the first
occurrence.  Naming hints are ignored by the structural lookup. -/
def intern (st : InternState) (hint : String) (s : TypeShape) : Nat × InternState :=
  match lookupShape st.entries s with
  | some i => (i, st)
  | none => (st.entries.length, ⟨st.entries ++ [s], st.hints ++ [hint]⟩)

/-- The JSON-schema `type` keyword naming each primitive kind. -/
def primKindName : PrimKind → String
  | .string => "string"
  | .integer => "integer"
  | .number => "number"
  | .boolean => "boolean"
  | .null => "null"

/-- Modelled from the spec: the Override Engine's `convert` table lookup,
matched by shape predicate, independent of naming.  Returns the external
target type of the first matching predicate. -/
def convertLookup (cfg : Config) (node : SchemaNode) : Option String :=
  match node with
  | .prim k f =>
    (cfg.convertTbl.find? (fun pc => pc.1.typeName == primKindName k && pc.1.format == f)).map (·.2)
  | _ => none

/-- Modelled from the spec: the Override Engine's `replace` table lookup,
matched by schema name, not shape. -/
def replaceLookup (cfg : Config) (name : String) : Option String :=
  (cfg.replaceTbl.find? (fun p => p.1 == name)).map (·.2)

/-- Modelled from the spec: the Override Engine's `patch` table lookup,
keyed by type name; consulted by the Namer (rename) and the Emitter
(extra derives). -/
def patchLookup (cfg : Config) (name : String) : Option PatchEntry :=
  (cfg.patch.find? (fun p => p.1 == name)).map (·.2)

/-- The result of synthesizing one schema node: either a candidate shape
still to be interned, or a `TypeRef` produced directly (by a `$ref` or by a
`convert` override, which short-circuits synthesis). -/
inductive Synthed where
  | shape (s : TypeShape)
  | tref (r : TypeRef)
deriving DecidableEq, Repr

/-- Interns a synthesized candidate shape; a direct `TypeRef` passes through
without touching the workspace (an external type carries its own identity). -/
def internSynthed (st : InternState) (hint : String) : Synthed → TypeRef × InternState
  | .shape s => let (i, st') := intern st hint s; (.tid i, st')
  | .tref r => (r, st)

/-- Modelled from the spec: structural merge of the property sets of an
`allOf` combination.  A property present twice with different definitions is
an `IncompatibleMerge` error. -/
def mergeFields (acc : List (String × TypeRef × Bool)) :
    List (String × TypeRef × Bool) → Except GenError (List (String × TypeRef × Bool))
  | [] => .ok acc
  | f :: rest =>
    match acc.find? (fun g => g.1 == f.1) with
    | some g => if g = f then mergeFields acc rest else .error (.incompatibleMerge f.1)
    | none => mergeFields (acc ++ [f]) rest

mutual

/-- Modelled from the spec: the Type Synthesizer.  Given a schema node and
the ambient workspace, produce a candidate shape (or a direct `TypeRef`), in
priority order: (1) the `convert` table, which short-circuits synthesis with
an external type and no descent into children; (2) `$ref`, which returns a
forward placeholder for the referenced root node (this is what lets cycles
terminate) or fails with `UnresolvableReference`; (3) combinators (`allOf`
merges property sets, `oneOf`/`anyOf` synthesize an untagged sum in document
order); (4) object schemas synthesize `Struct` (a property not in `required`
is optional) or `Map`; (5) `enum` synthesizes a closed enum of literal
values; (6) a `format` on a string synthesizes a `Newtype` tagged with the
format hint; (7) arrays synthesize `Sequence`, with absent `items` meaning a
sequence of the builtin any type; (8) anything unrecognized fails with
`UnsupportedSchema`. -/
def synthNode (cfg : Config) (env : List String) (st : InternState) (hint : String) :
    SchemaNode → Except GenError (Synthed × InternState)
  | node@(.prim k f) =>
    match convertLookup cfg node with
    | some t => .ok (.tref (.external t), st)
    | none =>
      match k, f with
      | .string, some fmt =>
        let (i, st') := intern st hint (.primitive .string none)
        .ok (.shape (.newtype (.tid i) (some fmt)), st')
      | _, _ => .ok (.shape (.primitive k f), st)
  | .ref target =>
    if target ∈ env then .ok (.tref (.forward target), st)
    else .error (.unresolvableReference target)
  | .object props required =>
    match synthProps cfg env st required props with
    | .error e => .error e
    | .ok (fields, st') => .ok (.shape (.struct fields), st')
  | .mapNode value =>
    match synthNode cfg env st (hint ++ "Value") value with
    | .error e => .error e
    | .ok (syn, st') =>
      let (r, st'') := internSynthed st' (hint ++ "Value") syn
      .ok (.shape (.map r), st'')
  | .array items =>
    match items with
    | some n =>
      match synthNode cfg env st (hint ++ "Item") n with
      | .error e => .error e
      | .ok (syn, st') =>
        let (r, st'') := internSynthed st' (hint ++ "Item") syn
        .ok (.shape (.sequence r), st'')
    | none =>
      let (i, st') := intern st (hint ++ "Item") (.builtin "any")
      .ok (.shape (.sequence (.tid i)), st')
  | .enumVals values =>
    .ok (.shape (.enum (values.map (fun v => (v, none)))), st)
  | .allOf subs =>
    match synthSubs cfg env st hint subs with
    | .error e => .error e
    | .ok (fieldLists, st') =>
      match fieldLists.foldlM (fun acc fs => mergeFields acc fs) [] with
      | .error e => .error e
      | .ok merged => .ok (.shape (.struct merged), st')
  | .oneOf alts =>
    match synthAlts cfg env st hint alts with
    | .error e => .error e
    | .ok (refs, st') => .ok (.shape (.untagged refs), st')
  | .anyOf alts =>
    match synthAlts cfg env st hint alts with
    | .error e => .error e
    | .ok (refs, st') => .ok (.shape (.untagged refs), st')
  | .unsupported ptr => .error (.unsupportedSchema ptr)

/-- Synthesizes the properties of an object schema in document order.  The
naming hint of a child is the capitalized property key; a property whose key
is not in `required` is marked optional. -/
def synthProps (cfg : Config) (env : List String) (st : InternState) (required : List String) :
    List (String × SchemaNode) → Except GenError (List (String × TypeRef × Bool) × InternState)
  | [] => .ok ([], st)
  | (key, n) :: rest =>
    match synthNode cfg env st key.capitalize n with
    | .error e => .error e
    | .ok (syn, st') =>
      let (r, st'') := internSynthed st' key.capitalize syn
      match synthProps cfg env st'' required rest with
      | .error e => .error e
      | .ok (fields, st''') => .ok ((key, r, !required.contains key) :: fields, st''')

/-- Synthesizes the alternatives of a `oneOf`/`anyOf` in document order. -/
def synthAlts (cfg : Config) (env : List String) (st : InternState) (hint : String) :
    List SchemaNode → Except GenError (List TypeRef × InternState)
  | [] => .ok ([], st)
  | n :: rest =>
    match synthNode cfg env st hint n with
    | .error e => .error e
    | .ok (syn, st') =>
      let (r, st'') := internSynthed st' hint syn
      match synthAlts cfg env st'' hint rest with
      | .error e => .error e
      | .ok (refs, st''') => .ok (r :: refs, st''')

/-- Synthesizes the sub-schemas of an `allOf` to their property lists.  A
sub-schema that does not synthesize to a struct shape has no defined merge
and is an `UnsupportedSchema` error. -/
def synthSubs (cfg : Config) (env : List String) (st : InternState) (hint : String) :
    List SchemaNode → Except GenError (List (List (String × TypeRef × Bool)) × InternState)
  | [] => .ok ([], st)
  | n :: rest =>
    match synthNode cfg env st hint n with
    | .error e => .error e
    | .ok (.shape (.struct fields), st') =>
      match synthSubs cfg env st' hint rest with
      | .error e => .error e
      | .ok (fieldLists, st'') => .ok (fields :: fieldLists, st'')
    | .ok (_, _) => .error (.unsupportedSchema "allOf")

end

/-- Synthesizes one node and interns the resulting candidate shape, returning
its `TypeRef`. -/
def synthChild (cfg : Config) (env : List String) (st : InternState) (hint : String)
    (node : SchemaNode) : Except GenError (TypeRef × InternState) :=
  match synthNode cfg env st hint node with
  | .error e => .error e
  | .ok (syn, st') => .ok (internSynthed st' hint syn)

/-- The naming hint of a root schema is its capitalized name. -/
def rootHint (name : String) : String := name.capitalize

/-- Modelled from the spec: synthesis of one root schema, applying the
override precedence — `convert` (shape-targeted) takes priority over
`replace` (name-targeted) takes priority over default synthesis. -/
def rootRef (cfg : Config) (env : List String) (st : InternState) (name : String)
    (node : SchemaNode) : Except GenError (TypeRef × InternState) :=
  match convertLookup cfg node with
  | some t => .ok (.external t, st)
  | none =>
    match replaceLookup cfg name with
    | some t => .ok (.external t, st)
    | none => synthChild cfg env st (rootHint name) node

/-- Modelled from the spec: incremental population of the workspace — every
root schema is synthesized in document order and bound to its `TypeRef`; any
generation-time error aborts the whole traversal. -/
def genRoots (cfg : Config) (env : List String) :
    InternState → List (String × TypeRef) → List (String × SchemaNode) →
    Except GenError (InternState × List (String × TypeRef))
  | st, bs, [] => .ok (st, bs)
  | st, bs, (name, node) :: rest =>
    match rootRef cfg env st name node with
    | .error e => .error e
    | .ok (r, st') => genRoots cfg env st' (bs ++ [(name, r)]) rest

/-- Chases a forward placeholder through the root bindings until it reaches an
interned `TypeId` or an external type; the fuel bounds alias chains, so a
degenerate pure-alias cycle fails with `UnresolvableReference` instead of
diverging. -/
def chase (bs : List (String × TypeRef)) : Nat → TypeRef → Except GenError TypeRef
  | _, .tid n => .ok (.tid n)
  | _, .external t => .ok (.external t)
  | 0, .forward n => .error (.unresolvableReference n)
  | k + 1, .forward n =>
    match bs.find? (fun p => p.1 == n) with
    | some p => chase bs k p.2
    | none => .error (.unresolvableReference n)

/-- Modelled from the spec: resolution of a forward placeholder once the
synthesis of all roots has completed. -/
def resolveRef (bs : List (String × TypeRef)) (r : TypeRef) : Except GenError TypeRef :=
  chase bs (bs.length + 1) r

/-- Resolves every field reference of a struct shape. -/
def resolveFields (bs : List (String × TypeRef)) :
    List (String × TypeRef × Bool) → Except GenError (List (String × TypeRef × Bool))
  | [] => .ok []
  | (k, r, opt) :: rest =>
    match resolveRef bs r with
    | .error e => .error e
    | .ok r' => (resolveFields bs rest).map (fun fs => (k, r', opt) :: fs)

/-- Resolves every variant payload of an enum shape. -/
def resolveVariants (bs : List (String × TypeRef)) :
    List (String × Option TypeRef) → Except GenError (List (String × Option TypeRef))
  | [] => .ok []
  | (tag, none) :: rest => (resolveVariants bs rest).map (fun vs => (tag, none) :: vs)
  | (tag, some r) :: rest =>
    match resolveRef bs r with
    | .error e => .error e
    | .ok r' => (resolveVariants bs rest).map (fun vs => (tag, some r') :: vs)

/-- Resolves a list of references. -/
def resolveRefList (bs : List (String × TypeRef)) :
    List TypeRef → Except GenError (List TypeRef)
  | [] => .ok []
  | r :: rest =>
    match resolveRef bs r with
    | .error e => .error e
    | .ok r' => (resolveRefList bs rest).map (fun rs => r' :: rs)

/-- Resolves every reference inside one interned shape. -/
def resolveShape (bs : List (String × TypeRef)) : TypeShape → Except GenError TypeShape
  | .struct fields => (resolveFields bs fields).map .struct
  | .enum variants => (resolveVariants bs variants).map .enum
  | .untagged alts => (resolveRefList bs alts).map .untagged
  | .newtype inner fh => (resolveRef bs inner).map (fun r => .newtype r fh)
  | .sequence elem => (resolveRef bs elem).map .sequence
  | .map value => (resolveRef bs value).map .map
  | .primitive k f => .ok (.primitive k f)
  | .optional inner => (resolveRef bs inner).map .optional
  | .unit => .ok .unit
  | .builtin n => .ok (.builtin n)

/-- Resolves every arena entry. -/
def resolveEntries (bs : List (String × TypeRef)) :
    List TypeShape → Except GenError (List TypeShape)
  | [] => .ok []
  | s :: rest =>
    match resolveShape bs s with
    | .error e => .error e
    | .ok s' => (resolveEntries bs rest).map (fun ss => s' :: ss)

/-- Resolves the root bindings themselves. -/
def resolveBindings (bs : List (String × TypeRef)) :
    List (String × TypeRef) → Except GenError (List (String × TypeRef))
  | [] => .ok []
  | (n, r) :: rest =>
    match resolveRef bs r with
    | .error e => .error e
    | .ok r' => (resolveBindings bs rest).map (fun rs => (n, r') :: rs)

/-- Modelled from the spec: base-name derivation — an explicit `patch` rename
takes priority over the recorded naming hint. -/
def patchBase (cfg : Config) (hint : String) : String :=
  match patchLookup cfg hint with
  | some p => p.rename.getD hint
  | none => hint

/-- Modelled from the spec: the Namer's collision policy.  The first `TypeId`
deriving a base name keeps it; a later `TypeId` deriving the same base name
gets a deterministic suffix based on first-seen order (`Item`, `Item2`,
`Item3`, …).  A collision the suffixing cannot resolve (e.g. two explicit
identical renames landing on an already assigned name) is a `NameCollision`
error. -/
def assignNamesGo (assigned : List String) (prior : List String) :
    List String → Except GenError (List String)
  | [] => .ok assigned
  | b :: rest =>
    let n := if prior.count b = 0 then b else b ++ toString (prior.count b + 1)
    if n ∈ assigned then .error (.nameCollision n)
    else assignNamesGo (assigned ++ [n]) (prior ++ [b]) rest

/-- Modelled from the spec: assign every interned `TypeId` a unique name from
its derived base name, in `TypeId` order. -/
def assignNames (bases : List String) : Except GenError (List String) :=
  assignNamesGo [] [] bases

/-- Modelled from the facade documentation: every generated type carries
`Debug`, `Clone`, `Serialize` and `Deserialize`. -/
def defaultDerives : List String := ["Debug", "Clone", "Serialize", "Deserialize"]

/-- Modelled from the facade documentation: the derives of one generated type
are the default set, plus the configuration's additional `derives`, plus the
extra derives of a `patch` entry for the type. -/
def derivesFor (cfg : Config) (hint : String) : List String :=
  defaultDerives ++ cfg.derives ++
    (match patchLookup cfg hint with
     | some p => p.derives
     | none => [])

/-- One emitted type definition: its `TypeId`, its assigned name, its
visibility (generated types are `pub`), its derive set and its resolved
body shape. -/
structure Definition where
  tid : Nat
  name : String
  isPub : Bool
  derives : List String
  body : TypeShape
deriving DecidableEq, Repr

/-- A builder interface emitted for one generated struct: the struct's name
and its fields with their optional flags. -/
structure BuilderSpec where
  structName : String
  fields : List (String × Bool)
deriving DecidableEq, Repr

/-- The emitted output of a generation run: the resolved reference of every
root schema, one definition per interned `TypeId` in `TypeId` order, and the
builder interfaces when builder generation is requested. -/
structure Output where
  rootRefs : List (String × TypeRef)
  defs : List Definition
  builders : List BuilderSpec
deriving DecidableEq, Repr

/-- Modelled from the spec: the Emitter produces one definition per interned
`TypeId`, in stable `TypeId` order. -/
def emitDefs (cfg : Config) (hints : List String) (names : List String)
    (bodies : List TypeShape) : List Definition :=
  (List.range bodies.length).map fun i =>
    { tid := i, name := names.getD i "", isPub := true,
      derives := derivesFor cfg (hints.getD i ""), body := bodies.getD i .unit }

/-- Modelled from the spec: when builder generation is requested, the Emitter
additionally produces one fallible builder per struct definition. -/
def emitBuilders (cfg : Config) (defs : List Definition) : List BuilderSpec :=
  if cfg.structBuilder then
    defs.filterMap fun d =>
      match d.body with
      | .struct fields => some ⟨d.name, fields.map (fun f => (f.1, f.2.2))⟩
      | _ => none
  else []

/-- Modelled from the spec: one full generation run — synthesize every root
schema into the workspace, resolve forward placeholders, derive and
deduplicate names, and emit the definitions.  Every generation-time error
aborts the run; partial output is never produced. -/
def generate (cfg : Config) (doc : List (String × SchemaNode)) : Except GenError Output :=
  let env := doc.map Prod.fst
  match genRoots cfg env InternState.empty [] doc with
  | .error e => .error e
  | .ok (st, bs) =>
    match resolveEntries bs st.entries with
    | .error e => .error e
    | .ok bodies =>
      match resolveBindings bs bs with
      | .error e => .error e
      | .ok rbs =>
        match assignNames (st.hints.map (patchBase cfg)) with
        | .error e => .error e
        | .ok names =>
          let defs := emitDefs cfg st.hints names bodies
          .ok { rootRefs := rbs, defs := defs, builders := emitBuilders cfg defs }

/-- Modelled from the spec: the programmatic `TypeSpace` interface — the unit
of lifecycle, created once per generation run from one configuration. -/
structure TypeSpace where
  settings : Config
  roots : List (String × SchemaNode)

/-- Modelled from the spec: a fresh `TypeSpace` holding the configuration and
no root schemas. -/
def TypeSpace.new (cfg : Config) : TypeSpace := ⟨cfg, []⟩

/-- Modelled from the spec: `add_root_schema(schema) -> TypeId` — registers a
root schema and returns its provisional identity. -/
def TypeSpace.addRootSchema (t : TypeSpace) (name : String) (node : SchemaNode) :
    Nat × TypeSpace :=
  (t.roots.length, ⟨t.settings, t.roots ++ [(name, node)]⟩)

/-- Modelled from the spec: `to_stream()` — runs generation over the
registered roots and produces the sequence of type definitions. -/
def TypeSpace.toStream (t : TypeSpace) : Except GenError Output :=
  generate t.settings t.roots

/-- Registers a list of root schemas one by one through `addRootSchema`. -/
def addAllRoots (t : TypeSpace) : List (String × SchemaNode) → TypeSpace
  | [] => t
  | (n, s) :: rest => addAllRoots (t.addRootSchema n s).2 rest

/-- Modelled from the facade documentation: the argument set of the
declarative `import_types!` invocation — `schema`, `derives`,
`struct_builder`, `patch`, `replace` and `convert`. -/
structure InvocationArgs where
  derives : List String
  structBuilder : Bool
  patch : List (String × PatchEntry)
  replaceTbl : List (String × String)
  convertTbl : List (ConvertPred × String)
deriving DecidableEq, Repr

/-- Modelled from the spec: both invocation modes construct a `TypeSpace`
from the same configuration shape; this is the translation of the macro
arguments into that shape. -/
def configOfArgs (a : InvocationArgs) : Config :=
  { derives := a.derives, structBuilder := a.structBuilder, patch := a.patch,
    replaceTbl := a.replaceTbl, convertTbl := a.convertTbl }

/-- Modelled from the spec: the in-source declarative invocation mode — it
builds the configuration from the macro arguments, constructs a `TypeSpace`,
registers every root schema through `add_root_schema` and produces the
definitions inline through `to_stream`. -/
def importTypesInline (args : InvocationArgs) (doc : List (String × SchemaNode)) :
    Except GenError Output :=
  TypeSpace.toStream (addAllRoots (TypeSpace.new (configOfArgs args)) doc)

/-- Modelled from the spec: the programmatic builder-interface mode usable
from a separate build step — it constructs a `TypeSpace` from the
configuration, registers every root schema through `add_root_schema` and
calls `to_stream`. -/
def buildScriptGenerate (cfg : Config) (doc : List (String × SchemaNode)) :
    Except GenError Output :=
  TypeSpace.toStream (addAllRoots (TypeSpace.new cfg) doc)

/-- Modelled from the spec: the builder-time conversion error — a runtime
result returned to the caller, distinct from generation-time errors. -/
inductive BuildError where
  | missingRequiredField (field : String)
deriving DecidableEq, Repr

/-- A runtime field value accepted by a generated builder. -/
inductive Value where
  | str (s : String)
  | boolean (b : Bool)
  | int (n : Int)
  | null
deriving DecidableEq, Repr

/-- Looks up the value a builder holds for one field. -/
def lookupField : List (String × Value) → String → Option Value
  | [], _ => none
  | (k, v) :: rest, key => if k == key then some v else lookupField rest key

/-- Modelled from the spec: a builder sets fields individually; its state is
the accumulated field assignments. -/
def setField (b : List (String × Value)) (key : String) (v : Value) :
    List (String × Value) :=
  b ++ [(key, v)]

/-- Modelled from the spec: the single fallible finalize operation of a
generated builder, for a struct with the given `(field, optional)` list.  A
set field keeps its value; an unset optional field is absent; an unset
required field fails the conversion with `MissingRequiredField`. -/
def finalize (fields : List (String × Bool)) (b : List (String × Value)) :
    Except BuildError (List (String × Option Value)) :=
  match fields with
  | [] => .ok []
  | (key, opt) :: rest =>
    match lookupField b key with
    | some v => (finalize rest b).map (fun fs => (key, some v) :: fs)
    | none =>
      if opt then (finalize rest b).map (fun fs => (key, none) :: fs)
      else .error (.missingRequiredField key)

theorem lookupShape_none_not_mem {s : TypeShape} :
    ∀ {l : List TypeShape}, lookupShape l s = none → s ∉ l := by
  intro l
  induction l with
  | nil => simp
  | cons t rest ih =>
    intro h hm
    by_cases e : t = s
    · rw [lookupShape, if_pos e] at h
      exact Option.noConfusion h
    · rw [lookupShape, if_neg e] at h
      have hr : lookupShape rest s = none := by
        cases hx : lookupShape rest s with
        | none => rfl
        | some i => rw [hx] at h; exact Option.noConfusion h
      rcases List.mem_cons.mp hm with rfl | hm'
      · exact e rfl
      · exact ih hr hm'

theorem lookupShape_some_lt {s : TypeShape} :
    ∀ {l : List TypeShape} {i : Nat}, lookupShape l s = some i → i < l.length := by
  intro l
  induction l with
  | nil => intro i h; exact Option.noConfusion h
  | cons t rest ih =>
    intro i h
    by_cases e : t = s
    · rw [lookupShape, if_pos e] at h
      cases h
      simp
    · rw [lookupShape, if_neg e] at h
      cases hx : lookupShape rest s with
      | none => rw [hx] at h; exact Option.noConfusion h
      | some j =>
        rw [hx] at h
        simp at h
        have := ih hx
        simp only [List.length_cons]
        omega

theorem lookupShape_some_mem {s : TypeShape} :
    ∀ {l : List TypeShape} {i : Nat}, lookupShape l s = some i → s ∈ l := by
  intro l
  induction l with
  | nil => intro i h; exact Option.noConfusion h
  | cons t rest ih =>
    intro i h
    by_cases e : t = s
    · exact e ▸ List.mem_cons_self t rest
    · rw [lookupShape, if_neg e] at h
      cases hx : lookupShape rest s with
      | none => rw [hx] at h; exact Option.noConfusion h
      | some j => exact List.mem_cons_of_mem t (ih hx)

theorem lookupShape_append_self {s : TypeShape} :
    ∀ {l : List TypeShape}, lookupShape l s = none →
      lookupShape (l ++ [s]) s = some l.length := by
  intro l
  induction l with
  | nil => intro _; simp [lookupShape]
  | cons t rest ih =>
    intro h
    by_cases e : t = s
    · rw [lookupShape, if_pos e] at h
      exact Option.noConfusion h
    · rw [lookupShape, if_neg e] at h
      have hr : lookupShape rest s = none := by
        cases hx : lookupShape rest s with
        | none => rfl
        | some i => rw [hx] at h; exact Option.noConfusion h
      rw [List.cons_append, lookupShape, if_neg e, ih hr]
      simp

theorem intern_id_lt (st : InternState) (h : String) (s : TypeShape) :
    (intern st h s).1 < (intern st h s).2.entries.length := by
  unfold intern
  cases hx : lookupShape st.entries s with
  | some i => simpa using lookupShape_some_lt hx
  | none => simp

/-- Helper: the second interning of the same shape returns the same id and
the unchanged state. -/
theorem intern_stable (st : InternState) (h1 h2 : String) (s : TypeShape) :
    intern (intern st h1 s).2 h2 s = ((intern st h1 s).1, (intern st h1 s).2) := by
  cases hx : lookupShape st.entries s with
  | some i =>
    simp only [intern, hx]
  | none =>
    simp only [intern, hx]
    have : lookupShape (st.entries ++ [s]) s = some st.entries.length :=
      lookupShape_append_self hx
    simp [this]

/-- C3: interning is idempotent — for every `TypeShape` key, a second call to
`intern` with the same key returns the `TypeId` of the first call and leaves
the workspace state unchanged (no mutation on the second call). -/
theorem intern_idempotent (st : InternState) (h1 h2 : String) (s : TypeShape) :
    (intern (intern st h1 s).2 h2 s).1 = (intern st h1 s).1 ∧
    (intern (intern st h1 s).2 h2 s).2 = (intern st h1 s).2 := by
  rw [intern_stable]
  exact ⟨rfl, rfl⟩

theorem intern_nodup (st : InternState) (h : String) (s : TypeShape)
    (hnd : st.entries.Nodup) : (intern st h s).2.entries.Nodup := by
  unfold intern
  cases hx : lookupShape st.entries s with
  | some i => simpa using hnd
  | none =>
    simp only
    exact List.nodup_append_comm.mp
      (List.Nodup.append (by simp) hnd (by simpa using lookupShape_none_not_mem hx))

theorem intern_mem (st : InternState) (h : String) (s : TypeShape) :
    s ∈ (intern st h s).2.entries := by
  unfold intern
  cases hx : lookupShape st.entries s with
  | some i => simpa using lookupShape_some_mem hx
  | none => simp

theorem emitDefs_count_tid (cfg : Config) (hints names : List String)
    (bodies : List TypeShape) (i : Nat) (hi : i < bodies.length) :
    (emitDefs cfg hints names bodies).countP (fun d => d.tid == i) = 1 := by
  unfold emitDefs
  rw [List.countP_map, Function.comp_def]
  have hmem : i ∈ List.range bodies.length := List.mem_range.mpr hi
  have hnd : (List.range bodies.length).Nodup := List.nodup_range _
  have hone := List.count_eq_one_of_mem hnd hmem
  rw [List.count] at hone
  convert hone using 2

/-- C2: two schema locations whose post-normalization `TypeShape`s are
structurally identical (in the same override context, hence interned into the
same workspace) are assigned the same `TypeId` by the interner, the second
interning performs no mutation, the shape is held exactly once in the arena,
and the emitted output contains exactly one type definition carrying that
`TypeId`. -/
theorem intern_dedup (cfg : Config) (st : InternState) (h1 h2 : String)
    (s1 s2 : TypeShape) (names : List String) (bodies : List TypeShape)
    (hnd : st.entries.Nodup) (heq : s1 = s2)
    (hlen : bodies.length = (intern (intern st h1 s1).2 h2 s2).2.entries.length) :
    (intern (intern st h1 s1).2 h2 s2).1 = (intern st h1 s1).1 ∧
    (intern (intern st h1 s1).2 h2 s2).2 = (intern st h1 s1).2 ∧
    (intern (intern st h1 s1).2 h2 s2).2.entries.count s1 = 1 ∧
    (emitDefs cfg (intern (intern st h1 s1).2 h2 s2).2.hints names bodies).countP
      (fun d => d.tid == (intern st h1 s1).1) = 1 := by
  subst heq
  rw [intern_stable]
  refine ⟨rfl, rfl, ?_, ?_⟩
  · exact List.count_eq_one_of_mem (intern_nodup st h1 s1 hnd) (intern_mem st h1 s1)
  · refine emitDefs_count_tid cfg _ names bodies _ ?_
    rw [intern_stable] at hlen
    rw [hlen]
    exact intern_id_lt st h1 s1

/-- C2 witness: a concrete double interning of one shape into the empty
workspace, with one-definition output. -/
theorem intern_dedup_witness :
    InternState.empty.entries.Nodup ∧
    (TypeShape.primitive .string none = TypeShape.primitive .string none) ∧
    ((1 : Nat) =
      (intern (intern InternState.empty "X" (.primitive .string none)).2 "Y"
        (.primitive .string none)).2.entries.length) ∧
    ((intern (intern InternState.empty "X" (.primitive .string none)).2 "Y"
        (.primitive .string none)).1 =
      (intern InternState.empty "X" (.primitive .string none)).1 ∧
    (intern (intern InternState.empty "X" (.primitive .string none)).2 "Y"
        (.primitive .string none)).2 =
      (intern InternState.empty "X" (.primitive .string none)).2 ∧
    (intern (intern InternState.empty "X" (.primitive .string none)).2 "Y"
        (.primitive .string none)).2.entries.count (.primitive .string none) = 1 ∧
    (emitDefs Config.default
        (intern (intern InternState.empty "X" (.primitive .string none)).2 "Y"
          (.primitive .string none)).2.hints ["S"] [.primitive .string none]).countP
      (fun d => d.tid == (intern InternState.empty "X" (.primitive .string none)).1) = 1) :=
  ⟨by decide, rfl, by decide,
    intern_dedup Config.default InternState.empty "X" "Y"
      (.primitive .string none) (.primitive .string none) ["S"] [.primitive .string none]
      (by decide) rfl (by decide)⟩

/-- C1: generation is deterministic — running generation twice on
byte-identical parsed input and configuration yields identical output, and
the synthesis of a node is a function of the node content, the override
bindings carried by the configuration and the ambient workspace alone, with
no other traversal-order input. -/
theorem generate_deterministic (cfg₁ cfg₂ : Config)
    (doc₁ doc₂ : List (String × SchemaNode)) (hc : cfg₁ = cfg₂) (hd : doc₁ = doc₂) :
    generate cfg₁ doc₁ = generate cfg₂ doc₂ ∧
    ∀ env st hint node, synthNode cfg₁ env st hint node = synthNode cfg₂ env st hint node := by
  subst hc
  subst hd
  exact ⟨rfl, fun _ _ _ _ => rfl⟩

/-- C1 witness: determinism at a concrete document and configuration. -/
theorem generate_deterministic_witness :
    generate Config.default [("A", SchemaNode.prim .string none)] =
      generate Config.default [("A", SchemaNode.prim .string none)] :=
  (generate_deterministic Config.default Config.default
    [("A", SchemaNode.prim .string none)] [("A", SchemaNode.prim .string none)] rfl rfl).1

/-- A two-node cyclic schema graph: `A`'s property references `B` and `B`'s
property references `A`. -/
def cyclicDoc : List (String × SchemaNode) :=
  [("A", .object [("b", .ref "B")] ["b"]),
   ("B", .object [("a", .ref "A")] ["a"])]

/-- C4: synthesis of the mutually-referential schema graph completes
successfully — the forward-placeholder mechanism keyed on schema-node
identity terminates the recursion — and produces two types each containing a
`TypeRef` to the other. -/
theorem cyclic_synthesis_terminates :
    generate Config.default cyclicDoc =
      .ok { rootRefs := [("A", .tid 0), ("B", .tid 1)],
            defs :=
              [{ tid := 0, name := "A", isPub := true,
                 derives := ["Debug", "Clone", "Serialize", "Deserialize"],
                 body := .struct [("b", .tid 1, false)] },
               { tid := 1, name := "B", isPub := true,
                 derives := ["Debug", "Clone", "Serialize", "Deserialize"],
                 body := .struct [("a", .tid 0, false)] }],
            builders := [] } := rfl

/-- C5: when a `convert` rule matches a root schema's shape and a `replace`
rule matches its name, the `convert` rule's external target type wins: it is
the reference bound for the schema, and for a single-root document it is the
external type used in the emitted output.  Precedence is fixed: `convert`
over `replace` over default synthesis. -/
theorem convert_over_replace (cfg : Config) (env : List String) (st : InternState)
    (name : String) (node : SchemaNode) (tc tr : String)
    (hc : convertLookup cfg node = some tc) (_hrep : replaceLookup cfg name = some tr) :
    rootRef cfg env st name node = .ok (.external tc, st) ∧
    generate cfg [(name, node)] =
      .ok { rootRefs := [(name, .external tc)], defs := [], builders := [] } := by
  have hroot : ∀ st' : InternState,
      rootRef cfg env st' name node = .ok (.external tc, st') := by
    intro st'
    unfold rootRef
    rw [hc]
  have hroot2 : rootRef cfg [name] InternState.empty name node =
      .ok (.external tc, InternState.empty) := by
    unfold rootRef
    rw [hc]
  refine ⟨hroot st, ?_⟩
  unfold generate
  simp only [List.map_cons, List.map_nil, genRoots, hroot2]
  simp [resolveEntries, resolveBindings, resolveRef, chase, assignNames, assignNamesGo,
    emitDefs, emitBuilders, Except.map]

/-- The configuration of the facade documentation's override examples: a
`replace` rule for the type name `Ipv6Cidr` and a `convert` rule for
string-with-uuid-format schemas. -/
def uuidOverrideCfg : Config :=
  { Config.default with
    replaceTbl := [("Ipv6Cidr", "my_fancy_networking_crate::Ipv6Cidr")],
    convertTbl := [(⟨"string", some "uuid"⟩, "my_fancy_uuid_crate::MyUuid")] }

/-- C5 witness: a schema matched both by the `convert` predicate (by shape)
and the `replace` rule (by name) binds to the `convert` target. -/
theorem convert_over_replace_witness :
    rootRef uuidOverrideCfg ["Ipv6Cidr"] InternState.empty "Ipv6Cidr"
        (.prim .string (some "uuid")) =
      .ok (.external "my_fancy_uuid_crate::MyUuid", InternState.empty) ∧
    generate uuidOverrideCfg [("Ipv6Cidr", .prim .string (some "uuid"))] =
      .ok { rootRefs := [("Ipv6Cidr", .external "my_fancy_uuid_crate::MyUuid")],
            defs := [], builders := [] } :=
  convert_over_replace uuidOverrideCfg ["Ipv6Cidr"] InternState.empty "Ipv6Cidr"
    (.prim .string (some "uuid")) "my_fancy_uuid_crate::MyUuid"
    "my_fancy_networking_crate::Ipv6Cidr" rfl rfl

theorem genRoots_append (cfg : Config) (env : List String) :
    ∀ (l1 l2 : List (String × SchemaNode)) (st : InternState) (bs : List (String × TypeRef)),
      genRoots cfg env st bs (l1 ++ l2) =
        match genRoots cfg env st bs l1 with
        | .error e => .error e
        | .ok (st', bs') => genRoots cfg env st' bs' l2 := by
  intro l1
  induction l1 with
  | nil =>
    intro l2 st bs
    simp [genRoots]
  | cons p rest ih =>
    intro l2 st bs
    obtain ⟨name, node⟩ := p
    simp only [List.cons_append, genRoots]
    cases hr : rootRef cfg env st name node with
    | error e => rfl
    | ok r =>
      obtain ⟨r', st'⟩ := r
      exact ih l2 st' (bs ++ [(name, r')])

/-- C7: generation is atomic with respect to errors — when any root schema
fails with a generation-time error after the preceding roots succeeded, the
entire run aborts with that error and no output is emitted. -/
theorem errors_abort_run (cfg : Config) (pre post : List (String × SchemaNode))
    (name : String) (node : SchemaNode) (e : GenError) (st' : InternState)
    (bs' : List (String × TypeRef))
    (hpre : genRoots cfg ((pre ++ (name, node) :: post).map Prod.fst)
      InternState.empty [] pre = .ok (st', bs'))
    (herr : rootRef cfg ((pre ++ (name, node) :: post).map Prod.fst) st' name node =
      .error e) :
    generate cfg (pre ++ (name, node) :: post) = .error e ∧
    ∀ out, generate cfg (pre ++ (name, node) :: post) ≠ .ok out := by
  have hg : genRoots cfg ((pre ++ (name, node) :: post).map Prod.fst)
      InternState.empty [] (pre ++ (name, node) :: post) = .error e := by
    rw [genRoots_append, hpre]
    simp only [genRoots, herr]
  have hfirst : generate cfg (pre ++ (name, node) :: post) = .error e := by
    simp only [generate, hg]
  refine ⟨hfirst, ?_⟩
  intro out hcontra
  rw [hfirst] at hcontra
  exact Except.noConfusion hcontra

/-- C7 witness: a document whose single root carries a dangling reference
aborts the whole run with `UnresolvableReference` and produces no output. -/
theorem errors_abort_run_witness :
    generate Config.default [("A", SchemaNode.ref "Z")] =
        .error (.unresolvableReference "Z") ∧
    ∀ out, generate Config.default [("A", SchemaNode.ref "Z")] ≠ .ok out :=
  errors_abort_run Config.default [] [] "A" (.ref "Z") (.unresolvableReference "Z")
    InternState.empty [] rfl rfl

theorem addAllRoots_spec : ∀ (l : List (String × SchemaNode)) (t : TypeSpace),
    addAllRoots t l = ⟨t.settings, t.roots ++ l⟩ := by
  intro l
  induction l with
  | nil => intro t; simp [addAllRoots]
  | cons p rest ih =>
    intro t
    obtain ⟨n, s⟩ := p
    rw [addAllRoots, ih]
    simp [TypeSpace.addRootSchema]

/-- C8: the declarative macro invocation and the programmatic builder
interface are equivalent — for the same schema document and configuration
both construct a `TypeSpace` from the same configuration shape, register the
roots through `add_root_schema` and call `to_stream`, producing the same
sequence of type definitions, namely the core generation run's output. -/
theorem invocation_modes_equivalent (args : InvocationArgs)
    (doc : List (String × SchemaNode)) :
    importTypesInline args doc = buildScriptGenerate (configOfArgs args) doc ∧
    buildScriptGenerate (configOfArgs args) doc = generate (configOfArgs args) doc := by
  refine ⟨rfl, ?_⟩
  unfold buildScriptGenerate TypeSpace.toStream
  rw [addAllRoots_spec]
  simp [TypeSpace.new]

/-- Two anonymous inline object schemas, both nested under a property named
`item`, in two different parent structs. -/
def namingDoc : List (String × SchemaNode) :=
  [("Parent1", .object [("item", .object [("a", .prim .string none)] [])] []),
   ("Parent2", .object [("item", .object [("b", .prim .integer none)] [])] [])]

/-- C9: the two anonymous inline object schemas nested under the property
`item` in different parent structs receive the two distinct names `Item` and
`Item2` — the disambiguating suffix is deterministic and based on first-seen
order. -/
theorem naming_collision_suffix :
    (generate Config.default namingDoc).map (fun o => o.defs.map (fun d => d.name)) =
      .ok ["A", "Item", "Parent1", "B", "Item2", "Parent2"] ∧
    ("Item" : String) ≠ "Item2" := by
  exact ⟨rfl, by decide⟩

theorem finalize_ok_iff (b : List (String × Value)) :
    ∀ fields : List (String × Bool),
      (∃ out, finalize fields b = .ok out) ↔
        ∀ f ∈ fields, f.2 = false → (lookupField b f.1).isSome = true := by
  intro fields
  induction fields with
  | nil =>
    constructor
    · intro _ f hf
      exact absurd hf (List.not_mem_nil f)
    · intro _
      exact ⟨[], rfl⟩
  | cons f rest ih =>
    obtain ⟨key, opt⟩ := f
    cases hl : lookupField b key with
    | some v =>
      simp only [finalize, hl, List.forall_mem_cons]
      constructor
      · rintro ⟨out, hout⟩
        refine ⟨fun _ => by simp [hl], ?_⟩
        apply ih.mp
        cases hr : finalize rest b with
        | ok o => exact ⟨o, rfl⟩
        | error e => rw [hr] at hout; exact Except.noConfusion hout
      · rintro ⟨-, hrest⟩
        obtain ⟨out', hout'⟩ := ih.mpr hrest
        exact ⟨(key, some v) :: out', by rw [hout']; rfl⟩
    | none =>
      cases opt with
      | true =>
        simp only [finalize, hl, if_true, List.forall_mem_cons]
        constructor
        · rintro ⟨out, hout⟩
          refine ⟨fun h => by simp at h, ?_⟩
          apply ih.mp
          cases hr : finalize rest b with
          | ok o => exact ⟨o, rfl⟩
          | error e => rw [hr] at hout; exact Except.noConfusion hout
        · rintro ⟨-, hrest⟩
          obtain ⟨out', hout'⟩ := ih.mpr hrest
          exact ⟨(key, none) :: out', by rw [hout']; rfl⟩
      | false =>
        simp only [finalize, hl, if_false]
        constructor
        · rintro ⟨out, hout⟩
          exact Except.noConfusion hout
        · intro hall
          have hhead := hall (key, false) (List.mem_cons_self _ _) rfl
          rw [hl] at hhead
          simp at hhead

/-- A struct schema with one required field `name: string` and one optional
field `active: boolean`. -/
def builderDoc : List (String × SchemaNode) :=
  [("Person",
    .object [("name", .prim .string none), ("active", .prim .boolean none)] ["name"])]

/-- C6: a generated builder's finalizing conversion succeeds exactly when all
required fields are set; with builder generation enabled the struct with
required `name` and optional `active` gets a builder, a builder that sets
only `name` converts successfully with `active` absent, and a builder that
omits `name` fails the conversion with `MissingRequiredField`. -/
theorem builder_roundtrip :
    (∀ (fields : List (String × Bool)) (b : List (String × Value)),
        (∃ out, finalize fields b = .ok out) ↔
          ∀ f ∈ fields, f.2 = false → (lookupField b f.1).isSome = true) ∧
    (generate { Config.default with structBuilder := true } builderDoc).map
        (fun o => o.builders) =
      .ok [{ structName := "Person", fields := [("name", false), ("active", true)] }] ∧
    finalize [("name", false), ("active", true)] (setField [] "name" (.str "radish")) =
      .ok [("name", some (.str "radish")), ("active", none)] ∧
    finalize [("name", false), ("active", true)] (setField [] "active" (.boolean true)) =
      .error (.missingRequiredField "name") :=
  ⟨fun fields b => finalize_ok_iff b fields, rfl, rfl, rfl⟩

/-- C10: every emitted type definition is `pub` and carries the default
`Debug`, `Clone`, `Serialize`, `Deserialize` derives even when the user
supplies no `derives` configuration; user-supplied `derives` only add to the
default set. -/
theorem generated_types_pub_default_derives (cfg : Config)
    (doc : List (String × SchemaNode)) (out : Output)
    (hok : generate cfg doc = .ok out) :
    ∀ d ∈ out.defs, d.isPub = true ∧
      (∀ x ∈ defaultDerives, x ∈ d.derives) ∧
      (∀ x ∈ cfg.derives, x ∈ d.derives) := by
  simp only [generate] at hok
  cases hg : genRoots cfg (List.map Prod.fst doc) InternState.empty [] doc with
  | error e => simp [hg] at hok
  | ok p =>
    obtain ⟨st, bs⟩ := p
    simp only [hg] at hok
    cases hb : resolveEntries bs st.entries with
    | error e => simp [hb] at hok
    | ok bodies =>
      simp only [hb] at hok
      cases hrb : resolveBindings bs bs with
      | error e => simp [hrb] at hok
      | ok rbs =>
        simp only [hrb] at hok
        cases hn : assignNames (List.map (patchBase cfg) st.hints) with
        | error e => simp [hn] at hok
        | ok names =>
          simp only [hn] at hok
          injection hok with hout
          subst hout
          intro d hd
          obtain ⟨i, hi, rfl⟩ := List.mem_map.mp hd
          refine ⟨rfl, ?_, ?_⟩
          · intro x hx
            unfold derivesFor
            exact List.mem_append_left _ (List.mem_append_left _ hx)
          · intro x hx
            unfold derivesFor
            exact List.mem_append_left _ (List.mem_append_right _ hx)

/-- A one-root document and a configuration with one additional derive. -/
def derivesDoc : List (String × SchemaNode) := [("Flag", .prim .boolean none)]

/-- A configuration adding one user-supplied derive. -/
def derivesCfg : Config := { Config.default with derives := ["JsonSchema"] }

/-- The single definition emitted by the run over `derivesDoc` with
`derivesCfg`. -/
def derivesOutDef : Definition :=
  { tid := 0, name := "Flag", isPub := true,
    derives := ["Debug", "Clone", "Serialize", "Deserialize", "JsonSchema"],
    body := .primitive .boolean none }

/-- C10 witness: the concrete output of a run with a user-supplied derive —
the emitted type is `pub` and carries the default derives plus the extra
one. -/
theorem generated_types_pub_default_derives_witness :
    derivesOutDef.isPub = true ∧
    "Serialize" ∈ derivesOutDef.derives ∧
    "JsonSchema" ∈ derivesOutDef.derives :=
  have h := generated_types_pub_default_derives derivesCfg derivesDoc
    { rootRefs := [("Flag", .tid 0)], defs := [derivesOutDef], builders := [] } rfl
    derivesOutDef (by simp)
  ⟨h.1, h.2.1 "Serialize" (by decide), h.2.2 "JsonSchema" (by decide)⟩

end Typify
